import Mathlib

/-!
Verification of `scripts/vendor_crates.py`: a shallow embedding of the
fetch / verify / repack pipeline for vendored Rust crates, together with
proofs about its claimed properties.

The embedding mirrors the Python source:
* `PurePosixPath` models Python's `pathlib.PurePosixPath` (purely lexical:
  it drops empty and `"."` components but keeps `".."` components, and
  `is_relative_to` is a parts-prefix test).
* `safeMemberName` / `addCrateToTar` model `_safe_member_name` and
  `_add_crate_to_tar`.
* `downloadCrate` models the per-crate unit of `fetch_crates_using_aiohttp`
  (cache skip, retry loop with exponential backoff, `.part` cleanup).
* `groupRun` definitions model the `asyncio.TaskGroup` join semantics of the
  fetch phase (documented stdlib behaviour: the first task failing with a
  non-`CancelledError` exception cancels the remaining tasks; the group
  waits for all of them and then raises the aggregated exceptions).
* `fetchCrates` models the transport-strategy fallback loop.
* `getWorkspaceRoot` models the upward lockfile walk.
* `repackCrates` models `repack_crates`, including the temporary-file /
  rename discipline, as a trace of filesystem actions.
-/

deriving instance DecidableEq for Except

namespace VendorCrates

/-- Python exception values relevant to `vendor_crates.py`.  `fileNotFound`
models `FileNotFoundError`; `downloadFailed` models the script's
`DownloadError(crate, cause)`, which carries the crate identity (its
filename) and the underlying cause. -/
inductive PyExc where
  | fileNotFound
  | permissionDenied
  | isADirectory
  | tomlDecodeError (msg : String)
  | valueError (msg : String)
  | runtimeError (msg : String)
  | clientResponseError (status : Nat) (msg : String)
  | osError (msg : String)
  | downloadFailed (filename : String) (cause : PyExc)
deriving DecidableEq, Repr

/-- Model of `pathlib.PurePosixPath`: an anchor flag plus the parsed
components.  Parsing drops empty and `"."` components and keeps `".."`;
no component of `parts` is ever resolved against another. -/
structure PurePosixPath where
  absolute : Bool
  parts : List String
deriving DecidableEq, Repr

/-- Split a character list on `'/'`, like `str.split("/")`. -/
def splitSlash : List Char → List (List Char)
  | [] => [[]]
  | c :: cs =>
    if c = '/' then [] :: splitSlash cs
    else
      match splitSlash cs with
      | [] => [[c]]
      | w :: ws => (c :: w) :: ws

/-- `PurePosixPath(s)`: split on `/`, drop empty and `"."` components,
record whether the path is anchored at the root. -/
def parsePurePosix (s : String) : PurePosixPath :=
  { absolute := s.data.head? == some '/'
    parts := ((splitSlash s.data).map String.mk).filter (fun c => c != "" && c != ".") }

/-- Interleave `'/'` between the components, like `"/".join`. -/
def joinSlash : List String → List Char
  | [] => []
  | [w] => w.data
  | w :: ws => w.data ++ '/' :: joinSlash ws

/-- `str(p)` for a `PurePosixPath`. -/
def PurePosixPath.render (p : PurePosixPath) : String :=
  if p.absolute then String.mk ('/' :: joinSlash p.parts)
  else if p.parts.isEmpty then "." else String.mk (joinSlash p.parts)

/-- `p.is_relative_to(q)`: a purely lexical test — same anchor and `q`'s
parts are a prefix of `p`'s parts.  `".."` components receive no special
treatment, exactly as in `pathlib`. -/
def PurePosixPath.isRelativeTo (p q : PurePosixPath) : Bool :=
  p.absolute == q.absolute && q.parts.isPrefixOf p.parts

/-- `p.parent` rendered as a string (drop the last component). -/
def posixParent (s : String) : String :=
  PurePosixPath.render ⟨(parsePurePosix s).absolute, (parsePurePosix s).parts.dropLast⟩

/-- A file-backed crate (`pycargoebuild.cargo.FileCrate`).  `crateDirectory`
is the package directory reported by `crate.get_package_directory(distdir)`
(the collaborator-defined package root inside the crate archive). -/
structure FileCrate where
  name : String
  version : String
  checksum : String
  filename : String
  downloadUrl : String
  crateDirectory : String
deriving DecidableEq, Repr

/-- A dependency from the lockfile: either file-backed or not (git / path
crates).  Non-file-backed crates still expose the `filename` sort key used
by `repack_crates`. -/
inductive Crate where
  | file (fc : FileCrate)
  | nonFile (name : String) (filename : String)
deriving DecidableEq, Repr

/-- The `crate.filename` attribute used as the sort key in `repack_crates`. -/
def Crate.filename : Crate → String
  | .file fc => fc.filename
  | .nonFile _ fn => fn

/-- `isinstance(crate, FileCrate)`. -/
def Crate.isFile : Crate → Bool
  | .file _ => true
  | .nonFile _ _ => false

/-- Project a crate to its file-backed payload, if any. -/
def Crate.asFile : Crate → Option FileCrate
  | .file fc => some fc
  | .nonFile _ _ => none

/-- `tarfile` member kinds distinguished by `_add_crate_to_tar`:
directories / symlinks / hardlinks are forwarded without content, regular
files are copied, anything else (FIFOs, devices, ...) is skipped. -/
inductive TarEntryType where
  | directory
  | symlink
  | hardlink
  | regular
  | other
deriving DecidableEq, Repr

/-- A member of an input crate archive (`tarfile.TarInfo` plus its data).
`content` is meaningful for regular members only. -/
structure TarMember where
  name : String
  entryType : TarEntryType
  content : String
deriving DecidableEq, Repr

/-- A member written to the output tar: rewritten name, original kind, and
the copied content for regular members (`none` for metadata-only members). -/
structure OutMember where
  name : String
  entryType : TarEntryType
  content : Option String
deriving DecidableEq, Repr

/-- `_safe_member_name(info, crate_dir, prefix)`: normalize the member name
via `PurePosixPath`, refuse members that are not `is_relative_to` the crate
directory, and re-root the accepted name under the prefix. -/
def safeMemberName (info : TarMember) (crateDir : PurePosixPath) (pfx : String) :
    Except PyExc String :=
  let originalPath := parsePurePosix info.name
  if originalPath.isRelativeTo crateDir then
    .ok (pfx ++ "/" ++ originalPath.render)
  else
    .error (.valueError ("Refusing to pack member outside crate dir: " ++ originalPath.render))

/-- The JSON written by `json.dumps({"package": crate.checksum, "files": {}})`. -/
def cargoChecksumJson (checksum : String) : String :=
  "\x7b\"package\": \"" ++ checksum ++ "\", \"files\": \x7b\x7d\x7d"

/-- The synthesized `.cargo-checksum.json` member appended after a crate's
contents (`f"{prefix}/{crate_dir}/.cargo-checksum.json"`, mode 0o644). -/
def checksumMember (crate : FileCrate) (pfx : String) : OutMember :=
  { name := pfx ++ "/" ++ crate.crateDirectory ++ "/.cargo-checksum.json"
    entryType := .regular
    content := some (cargoChecksumJson crate.checksum) }

/-- The member-copy loop of `_add_crate_to_tar`: members written so far,
plus the exception that aborted the loop, if any. -/
def copyMembers (crateDir : PurePosixPath) (pfx : String) :
    List TarMember → List OutMember × Option PyExc
  | [] => ([], none)
  | info :: rest =>
    match safeMemberName info crateDir pfx with
    | .error e => ([], some e)
    | .ok newName =>
      match info.entryType with
      | .directory | .symlink | .hardlink =>
        let (ms, err) := copyMembers crateDir pfx rest
        (⟨newName, info.entryType, none⟩ :: ms, err)
      | .regular =>
        let (ms, err) := copyMembers crateDir pfx rest
        (⟨newName, info.entryType, some info.content⟩ :: ms, err)
      | .other =>
        copyMembers crateDir pfx rest

/-- `_add_crate_to_tar(crate, distdir, tar_out, prefix)`: copy the archive
members (re-rooted and safety-checked), then append the checksum member.
Returns the members appended to `tar_out` and the exception that aborted
the copy, if any. -/
def addCrateToTar (crate : FileCrate) (archive : List TarMember) (pfx : String) :
    List OutMember × Option PyExc :=
  let crateDir := parsePurePosix crate.crateDirectory
  match copyMembers crateDir pfx archive with
  | (ms, some e) => (ms, some e)
  | (ms, none) => (ms ++ [checksumMember crate pfx], none)

/-- Code-point lexicographic comparison on character lists, the order
`sorted` uses on Python strings. -/
def lexLe : List Char → List Char → Bool
  | [], _ => true
  | _ :: _, [] => false
  | a :: as, b :: bs =>
    if a.toNat < b.toNat then true
    else if b.toNat < a.toNat then false
    else lexLe as bs

/-- Code-point lexicographic `≤` on strings. -/
def strLe (a b : String) : Bool := lexLe a.data b.data

/-- The key order of `sorted(crates, key=lambda crate: crate.filename)`. -/
def byFilename (a b : Crate) : Prop := strLe a.filename b.filename = true

instance : DecidableRel byFilename :=
  fun a b => inferInstanceAs (Decidable (strLe a.filename b.filename = true))

/-- `sorted(crates, key=lambda crate: crate.filename)`.  Python's `sorted`
is a stable sort, so any stable sorting algorithm computes the same list;
we use insertion sort. -/
def sortedCrates (crates : List Crate) : List Crate :=
  List.insertionSort byFilename crates

/-- The repack loop body over the already-sorted crate list: non-file
crates are skipped (`continue`), file crates are appended via
`_add_crate_to_tar`; the first exception aborts the loop.  `arch` maps a
crate filename to the members of its archive in the cache directory. -/
def packCrates (arch : String → List TarMember) (pfx : String) :
    List Crate → List OutMember × Option PyExc
  | [] => ([], none)
  | .nonFile _ _ :: rest => packCrates arch pfx rest
  | .file fc :: rest =>
    match addCrateToTar fc (arch fc.filename) pfx with
    | (ms, some e) => (ms, some e)
    | (ms, none) =>
      let (ms2, err) := packCrates arch pfx rest
      (ms ++ ms2, err)

/-- The members `repack_crates` writes into the output tar stream (and the
exception that aborted the loop, if any): the input crates sorted by
filename, file-backed ones expanded, non-file-backed ones skipped. -/
def repackMembers (crates : List Crate) (arch : String → List TarMember) (pfx : String) :
    List OutMember × Option PyExc :=
  packCrates arch pfx (sortedCrates crates)

/-- Filesystem actions performed by `repack_crates` at the temporary file
and the final tarball path. -/
inductive FsAct where
  | createTemp
  | appendTemp (m : OutMember)
  | closeStream
  | unlinkTemp
  | renameTempToFinal
deriving DecidableEq, Repr

/-- One invocation of `repack_crates`: the directory the temporary file is
created in (`tempfile.NamedTemporaryFile(dir=distdir)`), the filesystem
trace, and the Python-level result. -/
structure RepackRun where
  tempDir : String
  tarball : String
  trace : List FsAct
  result : Except PyExc Unit
deriving DecidableEq, Repr

/-- `repack_crates(crates, distdir, tarball, prefix)`: write all members
into the temporary file; on success close the stream and rename the
temporary file onto `tarball`; on any exception unlink the temporary file
and re-raise. -/
def repackCrates (crates : List Crate) (arch : String → List TarMember)
    (distdir tarball pfx : String) : RepackRun :=
  match repackMembers crates arch pfx with
  | (ms, none) =>
    { tempDir := distdir
      tarball := tarball
      trace := .createTemp :: (ms.map .appendTemp ++ [.closeStream, .renameTempToFinal])
      result := .ok () }
  | (ms, some e) =>
    { tempDir := distdir
      tarball := tarball
      trace := .createTemp :: (ms.map .appendTemp ++ [.unlinkTemp])
      result := .error e }

/-- Observable contents of the temporary file and of the final tarball
path (`none` = no file there). -/
structure FsView where
  temp : Option (List OutMember)
  final : Option (List OutMember)
deriving DecidableEq, Repr

/-- Effect of one filesystem action. -/
def fsStep (s : FsView) : FsAct → FsView
  | .createTemp => { temp := some [], final := s.final }
  | .appendTemp m => { temp := s.temp.map (· ++ [m]), final := s.final }
  | .closeStream => s
  | .unlinkTemp => { temp := none, final := s.final }
  | .renameTempToFinal => { temp := none, final := s.temp }

/-- Run a trace from the empty filesystem. -/
def fsRun (acts : List FsAct) : FsView :=
  acts.foldl fsStep ⟨none, none⟩

/-- What the network does on one attempt of `download_crate`:
* `response status body` — `session.get` returned a response;
* `netError written msg` — an `Exception` was raised while requesting or
  streaming, with `written` the bytes already streamed into the `.part`
  file (if any);
* `cancel written` — `asyncio.CancelledError` was delivered during the
  attempt (cancellation arrives at an await point, before any request is
  completed or mid-stream with `written` bytes in the `.part` file). -/
inductive AttemptEvent where
  | response (status : Nat) (body : String)
  | netError (written : Option String) (msg : String)
  | cancel (written : Option String)
deriving DecidableEq, Repr

/-- The statuses the fetcher explicitly retries. -/
def retryableStatuses : List Nat := [429, 500, 502, 503, 504]

/-- Outcome of one iteration of the retry loop before exception handling. -/
inductive AttemptOutcome where
  | success (body : String)
  | failure (cause : PyExc) (written : Option String)
  | cancelledNow (written : Option String)
deriving DecidableEq, Repr

/-- Classify one attempt: statuses 429/500/502/503/504 raise the explicit
"retryable" `ClientResponseError`; other statuses `>= 400` raise via
`response.raise_for_status()`; otherwise the body is streamed and the
attempt succeeds.  Network exceptions and cancellation pass through. -/
def classifyAttempt : AttemptEvent → AttemptOutcome
  | .response status body =>
    if status ∈ retryableStatuses then
      .failure (.clientResponseError status "retryable") none
    else if 400 ≤ status then
      .failure (.clientResponseError status "raise_for_status") none
    else .success body
  | .netError written msg => .failure (.osError msg) written
  | .cancel written => .cancelledNow written

/-- `true` when the attempt neither succeeds nor is cancelled. -/
def eventFails (ev : AttemptEvent) : Bool :=
  match classifyAttempt ev with
  | .failure _ _ => true
  | _ => false

/-- The exception a failing attempt raises (meaningful when `eventFails`). -/
def eventCause (ev : AttemptEvent) : PyExc :=
  match classifyAttempt ev with
  | .failure cause _ => cause
  | _ => .osError "unreachable"

/-- Observable per-unit state: the contents of the `.part` file and of the
destination, the number of network requests issued, the backoff sleeps
performed, and the number of loop iterations started. -/
structure UnitState where
  temp : Option String
  dest : Option String
  requests : Nat
  sleeps : List ℚ
  attempts : Nat
deriving DecidableEq, Repr

/-- How the unit coroutine exits. -/
inductive UnitExit where
  | completed
  | raised (e : PyExc)
  | cancelled
deriving DecidableEq, Repr

/-- The fresh state at unit entry. -/
def initState : UnitState := ⟨none, none, 0, [], 0⟩

/-- The retry loop `for attempt in range(1, retries + 1)` of
`download_crate`: on success stream to the `.part` file and atomically
replace the destination; on `CancelledError` unlink the `.part` file and
re-raise; on any other exception unlink the `.part` file, then either
raise `DownloadError(crate, e)` on the final attempt or sleep the current
backoff (which then doubles) and retry.  `remaining` counts the loop
iterations left; `attempt` is the 1-based attempt number. -/
def runAttempts (fname : String) (script : Nat → AttemptEvent) :
    (backoff : ℚ) → (attempt : Nat) → (remaining : Nat) → UnitState → UnitState × UnitExit
  | _, _, 0, s => (s, .completed)
  | backoff, attempt, r + 1, s =>
    let s0 : UnitState := { s with attempts := s.attempts + 1 }
    match classifyAttempt (script attempt) with
    | .success body =>
      let s1 : UnitState := { s0 with requests := s0.requests + 1, temp := some body }
      ({ s1 with temp := none, dest := some body }, .completed)
    | .cancelledNow written =>
      let s1 : UnitState := { s0 with temp := written }
      ({ s1 with temp := none }, .cancelled)
    | .failure cause written =>
      let s1 : UnitState := { s0 with requests := s0.requests + 1, temp := written }
      let s2 : UnitState := { s1 with temp := none }
      match r with
      | 0 => (s2, .raised (.downloadFailed fname cause))
      | _ + 1 =>
        runAttempts fname script (backoff * 2) (attempt + 1) r
          { s2 with sleeps := s2.sleeps ++ [backoff] }

/-- The filename guard of `download_crate`: reject absolute filenames and
filenames containing a path separator (POSIX `Path.is_absolute()` is a
leading `/`). -/
def badFilename (fname : String) : Bool :=
  fname.data.head? == some '/' || fname.data.contains '/' || fname.data.contains '\\'

/-- One fetch unit (`download_crate(crate)`): reject unsafe filenames
before touching the filesystem; succeed immediately when the destination
already exists non-empty (`cache` is the size of the existing destination
file, if any); otherwise run the retry loop with initial backoff `0.5`. -/
def downloadCrate (retries : Nat) (cache : Option Nat) (crate : FileCrate)
    (script : Nat → AttemptEvent) : UnitState × UnitExit :=
  if badFilename crate.filename then
    (initState, .raised (.valueError ("Unsafe crate filename: " ++ crate.filename)))
  else if (match cache with | some size => decide (0 < size) | none => false) = true then
    (initState, .completed)
  else
    runAttempts crate.filename script (1 / 2) 1 retries initState

/-- `int(os.getenv("VENDOR_CRATES_RETRIES", "4"))`, with the environment
value modelled as an optional natural. -/
def retriesSetting (env : Option Nat) : Nat := env.getD 4

/-- Total network requests issued by one fetch pass over `crates`, with
`cache` giving the size of each already-present destination file and
`scripts` the network behaviour of each crate's unit. -/
def totalRequests (retries : Nat) (cache : String → Option Nat)
    (scripts : String → Nat → AttemptEvent) (crates : List FileCrate) : Nat :=
  (crates.map
    (fun c => ((downloadCrate retries (cache c.filename) c (scripts c.filename)).1).requests)).sum

/-- One unit of the fetch group as the `asyncio.TaskGroup` join sees it:
its crate filename, the step at which it would reach its natural end, and
whether that natural end is a permanent failure (`DownloadError`) or
success. -/
structure FetchUnit where
  filename : String
  finish : Nat
  failsPermanently : Bool
deriving DecidableEq, Repr

/-- The step at which the first unit (if any) raises `DownloadError`. -/
def firstFailureTime : List FetchUnit → Option Nat
  | [] => none
  | u :: rest =>
    let r := firstFailureTime rest
    if u.failsPermanently then
      some (match r with | none => u.finish | some t => min u.finish t)
    else r

/-- Terminal states a unit can reach under the `TaskGroup` join. -/
inductive TerminalState where
  | completed
  | failedPermanently
  | cancelled
deriving DecidableEq, Repr

/-- Terminal state of one unit: per the documented `asyncio.TaskGroup`
semantics, the first `DownloadError` cancels every unit that has not yet
finished; units that finish no later than the first failure reach their
natural end (`download_crate` re-raises the delivered `CancelledError`
after deleting its partial file, so cancelled units end cancelled). -/
def terminalState (units : List FetchUnit) (u : FetchUnit) : TerminalState :=
  match firstFailureTime units with
  | none => .completed
  | some tFail =>
    if u.finish ≤ tFail then
      (if u.failsPermanently then .failedPermanently else .completed)
    else .cancelled

/-- The step at which a unit reaches its terminal state (cancelled units
stop at the first failure time). -/
def terminationTime (units : List FetchUnit) (u : FetchUnit) : Nat :=
  match firstFailureTime units with
  | none => u.finish
  | some tFail => min u.finish tFail

/-- The step at which the whole group re-raises: after every unit has
reached its terminal state. -/
def groupRaiseTime (units : List FetchUnit) : Nat :=
  (units.map (terminationTime units)).foldl max 0

/-- The filenames collected from the `DownloadError`s of the exception
group by the `except*` handler (units cancelled before their natural
failure raise `CancelledError` instead and are not collected). -/
def namedFailures (units : List FetchUnit) : List String :=
  match firstFailureTime units with
  | none => []
  | some tFail =>
    (units.filter (fun u => u.failsPermanently && decide (u.finish ≤ tFail))).map (·.filename)

/-- Group-level error raised by `fetch_crates_using_aiohttp`. -/
inductive GroupError where
  | someDownloadsFailed (failed : List String)
deriving DecidableEq, Repr

/-- Result of the `TaskGroup` join plus the `except*` handler: on any
permanent failure, `RuntimeError(f"Some downloads failed: {failed}")`
naming the crates whose `DownloadError` reached the group. -/
def groupResult (units : List FetchUnit) : Except GroupError Unit :=
  match firstFailureTime units with
  | none => .ok ()
  | some _ => .error (.someDownloadsFailed (namedFailures units))

/-- `_try_fetcher(func, crates, distdir)`: `False` when the fetcher raises
`FileNotFoundError`, `True` on success, any other exception propagates. -/
def tryFetcher (outcome : Except PyExc Unit) : Except PyExc Bool :=
  match outcome with
  | .ok _ => .ok true
  | .error .fileNotFound => .ok false
  | .error e => .error e

/-- The error message of `fetch_crates` when no fetcher is available
(`FETCHERS = ("aiohttp", "aria2", "wget")`). -/
def noFetcherMsg : String := "No supported fetcher found (tried aiohttp, aria2, wget)"

/-- The strategy loop of `fetch_crates` over the outcomes of the listed
fetchers: return on the first fetcher `_try_fetcher` reports `True` for,
skip it on `False`, propagate any other exception; raise `RuntimeError`
when every fetcher is unavailable. -/
def fetchFallback : List (Except PyExc Unit) → Except PyExc Unit
  | [] => .error (.runtimeError noFetcherMsg)
  | outcome :: rest =>
    match tryFetcher outcome with
    | .ok true => .ok ()
    | .ok false => fetchFallback rest
    | .error e => .error e

/-- `fetch_crates(crates, distdir)` with `FETCHER_FUNCS` the fixed triple
(aiohttp fetcher, aria2 fetcher, wget fetcher), each abstracted by the
outcome it would produce on this crate set. -/
def fetchCrates (aiohttpOutcome aria2Outcome wgetOutcome : Except PyExc Unit) :
    Except PyExc Unit :=
  fetchFallback [aiohttpOutcome, aria2Outcome, wgetOutcome]

/-- Everything `get_workspace_root` observes at one ancestor directory:
the result of opening `Cargo.lock`, whether `Cargo.toml` is a file, and
the result of opening it (consulted only when it is a file). -/
structure AncestorDir where
  lockOpen : Except PyExc String
  manifestIsFile : Bool
  manifestOpen : Except PyExc String
deriving DecidableEq, Repr

/-- The resolved workspace data: the parsed crate set and the
workspace-level package metadata. -/
structure WorkspaceData where
  crates : List String
  workspaceMetadata : String
deriving DecidableEq, Repr

/-- The body of the `try` block of `get_workspace_root` at one ancestor:
open `Cargo.lock`; if `Cargo.toml` is a file, open and parse it for the
workspace metadata; then parse the lockfile with `get_crates`.  Any
exception from any step escapes the body.  `parseLock` models
`get_crates`, `parseToml` models `tomllib.load(...)` plus the
`workspace.package` lookups. -/
def ancestorStep (parseLock : String → Except PyExc (List String))
    (parseToml : String → Except PyExc String) (a : AncestorDir) :
    Except PyExc WorkspaceData :=
  match a.lockOpen with
  | .error e => .error e
  | .ok lockBytes =>
    let metaR : Except PyExc String :=
      if a.manifestIsFile then
        match a.manifestOpen with
        | .error e => .error e
        | .ok tomlBytes => parseToml tomlBytes
      else .ok ""
    match metaR with
    | .error e => .error e
    | .ok meta =>
      match parseLock lockBytes with
      | .error e => .error e
      | .ok crates => .ok ⟨crates, meta⟩

/-- The message of the `RuntimeError` raised when the walk exhausts all
ancestors. -/
def lockfileNotFoundMsg : String :=
  "Cargo.lock not found in the given directory or any parent"

/-- `get_workspace_root(directory)` over the ancestor chain (self first,
then parents up to the root): only `FileNotFoundError` continues the walk;
the first ancestor whose body does not raise `FileNotFoundError` decides
the result. -/
def getWorkspaceRoot (parseLock : String → Except PyExc (List String))
    (parseToml : String → Except PyExc String) :
    List AncestorDir → Except PyExc WorkspaceData
  | [] => .error (.runtimeError lockfileNotFoundMsg)
  | a :: rest =>
    match ancestorStep parseLock parseToml a with
    | .error .fileNotFound => getWorkspaceRoot parseLock parseToml rest
    | .error e => .error e
    | .ok wd => .ok wd

/-- The sequence of crates the repack loop actually expands: the sorted
list restricted to file-backed crates. -/
def processedOrder (crates : List Crate) : List Crate :=
  (sortedCrates crates).filter Crate.isFile

/-- A crate used as concrete failing input for the path-safety claim. -/
def escCrate : FileCrate :=
  ⟨"foo", "1.0", "c0ffee", "foo-1.0.crate", "https://example.invalid/foo", "foo-1.0"⟩

/-- File crates used in the determinism witness. -/
def wAlpha : FileCrate := ⟨"alpha", "1.1", "sumA", "alpha-1.1.crate", "uA", "alpha-1.1"⟩

def wBar : FileCrate := ⟨"bar", "0.2", "sumB", "bar-0.2.crate", "uB", "bar-0.2"⟩

/-- The crate of the C9 concrete input. -/
def c9Crate : FileCrate := ⟨"foo", "1.0", "abc123", "foo-1.0.crate", "u", "foo-1.0"⟩

/-- A well-formed crate used as concrete input by several witnesses. -/
def sampleCrate : FileCrate := ⟨"foo", "1.0", "abc123", "foo-1.0.crate", "u", "foo-1.0"⟩

/-- A unit script whose first attempt fails and whose second attempt is
interrupted by external cancellation mid-stream. -/
def c4Script : Nat → AttemptEvent := fun i =>
  if i = 1 then .netError (some "chunk") "connection reset" else .cancel (some "chunk")

/-- Two units that would both fail permanently, the second later than the
first. -/
def cexUnits : List FetchUnit := [⟨"a-1.crate", 1, true⟩, ⟨"b-2.crate", 2, true⟩]

/-! ## Helper lemmas about the repack filesystem trace -/

/-- A trace without a rename never changes the final path. -/
theorem foldl_fsStep_final_of_no_rename (acts : List FsAct)
    (h : FsAct.renameTempToFinal ∉ acts) (s : FsView) :
    (acts.foldl fsStep s).final = s.final := by
  induction acts generalizing s with
  | nil => rfl
  | cons a rest ih =>
    have ha : a ≠ .renameTempToFinal := fun he => h (he ▸ List.mem_cons_self a rest)
    have hr : FsAct.renameTempToFinal ∉ rest := fun hm => h (List.mem_cons_of_mem a hm)
    rw [List.foldl_cons, ih hr]
    cases a with
    | renameTempToFinal => exact absurd rfl ha
    | createTemp => rfl
    | appendTemp m => rfl
    | closeStream => rfl
    | unlinkTemp => rfl

/-- Folding the append actions of `ms` extends the temporary file by `ms`. -/
theorem foldl_fsStep_appendTemp (ms : List OutMember) (s : FsView) :
    ((ms.map FsAct.appendTemp).foldl fsStep s) =
      ⟨s.temp.map (· ++ ms), s.final⟩ := by
  induction ms generalizing s with
  | nil => cases s with | mk t f => cases t <;> simp
  | cons m rest ih =>
    rw [List.map_cons, List.foldl_cons, ih]
    cases s with
    | mk t f => cases t <;> simp [fsStep]

/-- A strict prefix of a list is a prefix of its `dropLast`. -/
theorem isPrefix_dropLast_of_strict {α : Type} {pre l : List α}
    (h : pre <+: l) (hne : pre ≠ l) : pre <+: l.dropLast := by
  have hlen : pre.length ≤ l.length := h.length_le
  have hlt : pre.length < l.length := by
    rcases Nat.lt_or_ge pre.length l.length with hl | hg
    · exact hl
    · exact absurd (List.IsPrefix.eq_of_length h (Nat.le_antisymm hlen hg)) hne
  have htake : pre = l.take pre.length := List.prefix_iff_eq_take.mp h
  have h2 : l.take pre.length = l.dropLast.take pre.length := by
    rw [List.dropLast_eq_take, List.take_take]
    congr 1
    omega
  rw [htake, h2]
  exact List.take_prefix _ _

/-- The successful repack trace ends with the complete member list at the
final path and no temporary file. -/
theorem fsRun_successTrace (ms : List OutMember) :
    fsRun (.createTemp :: (ms.map .appendTemp ++ [.closeStream, .renameTempToFinal])) =
      ⟨none, some ms⟩ := by
  unfold fsRun
  rw [List.foldl_cons]
  have h1 : fsStep ⟨none, none⟩ .createTemp = ⟨some [], none⟩ := rfl
  rw [h1, List.foldl_append, foldl_fsStep_appendTemp]
  simp [fsStep]

/-- The failing repack trace ends with no file at either path. -/
theorem fsRun_errorTrace (ms : List OutMember) :
    fsRun (.createTemp :: (ms.map .appendTemp ++ [.unlinkTemp])) = ⟨none, none⟩ := by
  unfold fsRun
  rw [List.foldl_cons]
  have h1 : fsStep ⟨none, none⟩ .createTemp = ⟨some [], none⟩ := rfl
  rw [h1, List.foldl_append, foldl_fsStep_appendTemp]
  simp [fsStep]

/-- The successful repack trace is the close/rename tail after the appends. -/
theorem successTrace_concat (ms : List OutMember) :
    FsAct.createTemp :: (ms.map FsAct.appendTemp ++ [FsAct.closeStream, FsAct.renameTempToFinal]) =
      (FsAct.createTemp :: (ms.map FsAct.appendTemp ++ [FsAct.closeStream])) ++
        [FsAct.renameTempToFinal] := by
  simp

/-! ## C1: tar-slip protection in `_safe_member_name` -/

/-- Claim C1, evaluated at its failing input.  The claim says a member
whose declared path escapes the package root via `..` components makes
repack fail with a `PathEscape` error before the member is copied.  The
code instead accepts the member `foo-1.0/../../etc/passwd` — it is
`is_relative_to("foo-1.0")` lexically, because `PurePosixPath` does not
resolve `..` — and copies it into the output archive under
`p/foo-1.0/../../etc/passwd`, which escapes the package root on
extraction.  A member whose path lies outside the root without using the
root as its first component is rejected, confirming that the rejection is
a purely lexical prefix test. -/
theorem c1_dotdot_member_not_rejected :
    safeMemberName ⟨"foo-1.0/../../etc/passwd", .regular, "evil"⟩
        (parsePurePosix "foo-1.0") "p" = .ok "p/foo-1.0/../../etc/passwd"
    ∧ addCrateToTar escCrate [⟨"foo-1.0/../../etc/passwd", .regular, "evil"⟩] "p" =
        ([⟨"p/foo-1.0/../../etc/passwd", .regular, some "evil"⟩, checksumMember escCrate "p"],
          none)
    ∧ safeMemberName ⟨"etc/passwd", .regular, "x"⟩ (parsePurePosix "foo-1.0") "p" =
        .error (.valueError "Refusing to pack member outside crate dir: etc/passwd")
    ∧ safeMemberName ⟨"/abs/path", .regular, "x"⟩ (parsePurePosix "foo-1.0") "p" =
        .error (.valueError "Refusing to pack member outside crate dir: /abs/path") := by
  exact ⟨by decide, by decide, by decide, by decide⟩

/-! ## C3: atomic write of the output artifact -/

/-- Counterexample to claim C3 as stated: the temporary file is created in
the cache directory (`tempfile.NamedTemporaryFile(dir=distdir)`), not in
the directory of the final output path.  With `distdir = "cache"` and the
output path `out/a.tar.xz`, the two directories differ. -/
theorem c3_tempdir_counterexample :
    (repackCrates [] (fun _ => []) "cache" "out/a.tar.xz" "p").tempDir = "cache"
    ∧ posixParent (repackCrates [] (fun _ => []) "cache" "out/a.tar.xz" "p").tarball = "out"
    ∧ (repackCrates [] (fun _ => []) "cache" "out/a.tar.xz" "p").tempDir ≠
        posixParent (repackCrates [] (fun _ => []) "cache" "out/a.tar.xz" "p").tarball := by
  exact ⟨by decide, by decide, by decide⟩

/-- Claim C3, amended: the temporary file lives in the cache directory
`distdir` (not necessarily the output path's directory); it is renamed to
the final output path only after the compressed stream closes
successfully; on any exception the temporary file is deleted and the
exception propagates; and at no point does a partially-written file exist
at the final output path (every strict prefix of the filesystem trace
leaves nothing at the final path, and the full trace leaves either
nothing, or the complete member list on success). -/
theorem c3_repack_atomic (crates : List Crate) (arch : String → List TarMember)
    (distdir tarball pfx : String) :
    (repackCrates crates arch distdir tarball pfx).tempDir = distdir
    ∧ (∀ pre, pre <+: (repackCrates crates arch distdir tarball pfx).trace →
        pre ≠ (repackCrates crates arch distdir tarball pfx).trace →
        (fsRun pre).final = none)
    ∧ (∀ e, (repackCrates crates arch distdir tarball pfx).result = .error e →
        (repackMembers crates arch pfx).2 = some e
        ∧ fsRun (repackCrates crates arch distdir tarball pfx).trace = ⟨none, none⟩)
    ∧ ((repackCrates crates arch distdir tarball pfx).result = .ok () →
        fsRun (repackCrates crates arch distdir tarball pfx).trace =
          ⟨none, some (repackMembers crates arch pfx).1⟩
        ∧ (repackCrates crates arch distdir tarball pfx).trace.getLast? =
            some .renameTempToFinal
        ∧ (repackCrates crates arch distdir tarball pfx).trace.dropLast.getLast? =
            some .closeStream) := by
  rcases hrm : repackMembers crates arch pfx with ⟨ms, err⟩
  cases err with
  | none =>
    have hrun : repackCrates crates arch distdir tarball pfx =
        { tempDir := distdir
          tarball := tarball
          trace := .createTemp :: (ms.map .appendTemp ++ [.closeStream, .renameTempToFinal])
          result := .ok () } := by
      unfold repackCrates
      rw [hrm]
    refine ⟨by rw [hrun], ?_, ?_, ?_⟩
    · intro pre hpre hne
      rw [hrun] at hpre hne
      have hdl : (FsAct.createTemp ::
          (ms.map FsAct.appendTemp ++ [FsAct.closeStream, FsAct.renameTempToFinal])).dropLast =
          FsAct.createTemp :: (ms.map FsAct.appendTemp ++ [FsAct.closeStream]) := by
        rw [successTrace_concat, List.dropLast_concat]
      have hpre' := isPrefix_dropLast_of_strict hpre hne
      rw [hdl] at hpre'
      have hnr : FsAct.renameTempToFinal ∉
          FsAct.createTemp :: (ms.map FsAct.appendTemp ++ [FsAct.closeStream]) := by
        simp [List.mem_map]
      have hnr' : FsAct.renameTempToFinal ∉ pre := fun hm => hnr (hpre'.sublist.mem hm)
      exact foldl_fsStep_final_of_no_rename pre hnr' ⟨none, none⟩
    · intro e he
      rw [hrun] at he
      exact absurd he (by simp)
    · intro _
      rw [hrun]
      refine ⟨fsRun_successTrace ms, ?_, ?_⟩
      · rw [successTrace_concat, List.getLast?_concat]
      · rw [successTrace_concat, List.dropLast_concat]
        have h3 : FsAct.createTemp :: (ms.map FsAct.appendTemp ++ [FsAct.closeStream]) =
            (FsAct.createTemp :: ms.map FsAct.appendTemp) ++ [FsAct.closeStream] := by
          simp
        rw [h3, List.getLast?_concat]
  | some e0 =>
    have hrun : repackCrates crates arch distdir tarball pfx =
        { tempDir := distdir
          tarball := tarball
          trace := .createTemp :: (ms.map .appendTemp ++ [.unlinkTemp])
          result := .error e0 } := by
      unfold repackCrates
      rw [hrm]
    have hnr : FsAct.renameTempToFinal ∉
        FsAct.createTemp :: (ms.map FsAct.appendTemp ++ [FsAct.unlinkTemp]) := by
      simp [List.mem_map]
    refine ⟨by rw [hrun], ?_, ?_, ?_⟩
    · intro pre hpre _
      rw [hrun] at hpre
      have hnr' : FsAct.renameTempToFinal ∉ pre := fun hm => hnr (hpre.sublist.mem hm)
      exact foldl_fsStep_final_of_no_rename pre hnr' ⟨none, none⟩
    · intro e he
      rw [hrun] at he
      have he0 : e0 = e := by
        have h4 := congrArg (fun r => match r with | Except.error x => some x | _ => none)
          (show Except.error e0 = (Except.error e : Except PyExc Unit) from he)
        simpa using h4
      subst he0
      exact ⟨rfl, by rw [hrun]; exact fsRun_errorTrace ms⟩
    · intro hok
      rw [hrun] at hok
      exact absurd hok (by simp)

/-! ## C6: determinism of the repack member stream -/

theorem lexLe_refl (l : List Char) : lexLe l l = true := by
  induction l with
  | nil => rfl
  | cons a as ih => simp [lexLe, ih]

theorem lexLe_total (a b : List Char) : lexLe a b = true ∨ lexLe b a = true := by
  induction a generalizing b with
  | nil => left; rfl
  | cons x xs ih =>
    cases b with
    | nil => right; rfl
    | cons y ys =>
      by_cases hxy : x.toNat < y.toNat
      · left; simp [lexLe, hxy]
      · by_cases hyx : y.toNat < x.toNat
        · right; simp [lexLe, hyx]
        · rcases ih ys with h | h
          · left; simp [lexLe, hxy, hyx, h]
          · right; simp [lexLe, hxy, hyx, h]

theorem lexLe_antisymm {a b : List Char} (hab : lexLe a b = true) (hba : lexLe b a = true) :
    a = b := by
  induction a generalizing b with
  | nil =>
    cases b with
    | nil => rfl
    | cons y ys => exact absurd hba (by simp [lexLe])
  | cons x xs ih =>
    cases b with
    | nil => exact absurd hab (by simp [lexLe])
    | cons y ys =>
      by_cases hxy : x.toNat < y.toNat
      · exact absurd hba (by simp [lexLe, hxy, Nat.not_lt.mpr (Nat.le_of_lt hxy), Nat.lt_irrefl])
      · by_cases hyx : y.toNat < x.toNat
        · exact absurd hab (by simp [lexLe, hxy, hyx])
        · have hx : x = y := by
            have hn : x.toNat = y.toNat := by omega
            have hv : x.val.toNat = y.val.toNat := hn
            exact Char.ext (UInt32.toNat.inj hv)
          subst hx
          have hab' : lexLe xs ys = true := by
            simpa [lexLe, hyx] using hab
          have hba' : lexLe ys xs = true := by
            simpa [lexLe, hyx] using hba
          rw [ih hab' hba']

theorem lexLe_trans {a b c : List Char} (hab : lexLe a b = true) (hbc : lexLe b c = true) :
    lexLe a c = true := by
  induction a generalizing b c with
  | nil => rfl
  | cons x xs ih =>
    cases b with
    | nil => exact absurd hab (by simp [lexLe])
    | cons y ys =>
      cases c with
      | nil => exact absurd hbc (by simp [lexLe])
      | cons z zs =>
        by_cases hxy : x.toNat < y.toNat <;> by_cases hyz : y.toNat < z.toNat
        · simp [lexLe, show x.toNat < z.toNat by omega]
        · have hzy : z.toNat ≤ y.toNat := by omega
          by_cases hyz' : z.toNat < y.toNat
          · exact absurd hbc (by simp [lexLe, hyz, hyz'])
          · have : y.toNat = z.toNat := by omega
            simp [lexLe, show x.toNat < z.toNat by omega]
        · have hxy' : ¬ y.toNat < x.toNat := by
            intro hcon
            exact absurd hab (by simp [lexLe, hxy, hcon])
          have hxeq : x.toNat = y.toNat := by omega
          simp [lexLe, show x.toNat < z.toNat by omega]
        · have hxy' : ¬ y.toNat < x.toNat := by
            intro hcon
            exact absurd hab (by simp [lexLe, hxy, hcon])
          have hyz' : ¬ z.toNat < y.toNat := by
            intro hcon
            exact absurd hbc (by simp [lexLe, hyz, hcon])
          have hab' : lexLe xs ys = true := by simpa [lexLe, hxy, hxy'] using hab
          have hbc' : lexLe ys zs = true := by simpa [lexLe, hyz, hyz'] using hbc
          simp [lexLe, show ¬ x.toNat < z.toNat by omega, show ¬ z.toNat < x.toNat by omega,
            ih hab' hbc']

theorem strLe_antisymm {a b : String} (hab : strLe a b = true) (hba : strLe b a = true) :
    a = b :=
  String.ext (lexLe_antisymm hab hba)

instance : IsTotal Crate byFilename :=
  ⟨fun a b => lexLe_total a.filename.data b.filename.data⟩

instance : IsTrans Crate byFilename :=
  ⟨fun _ _ _ hab hbc => lexLe_trans hab hbc⟩

/-- Two permuted lists that are both sorted by a key taking no duplicate
values are equal. -/
theorem sorted_key_nodup_unique {α : Type} (key : α → String) :
    ∀ (l1 l2 : List α), l1.Perm l2 →
      l1.Pairwise (fun a b => strLe (key a) (key b) = true) →
      l2.Pairwise (fun a b => strLe (key a) (key b) = true) →
      (l1.map key).Nodup → l1 = l2 := by
  intro l1
  induction l1 with
  | nil =>
    intro l2 hperm _ _ _
    exact (hperm.symm.eq_nil).symm
  | cons a as ih =>
    intro l2 hperm hp1 hp2 hnd
    cases l2 with
    | nil => exact absurd hperm.eq_nil (by simp)
    | cons b bs =>
      have hab : a = b := by
        by_contra hne
        have hamem : a ∈ b :: bs := hperm.mem_iff.mp (List.mem_cons_self a as)
        have hbmem : b ∈ a :: as := hperm.symm.mem_iff.mp (List.mem_cons_self b bs)
        have habs : a ∈ bs := by
          rcases List.mem_cons.mp hamem with h | h
          · exact absurd h hne
          · exact h
        have hbas : b ∈ as := by
          rcases List.mem_cons.mp hbmem with h | h
          · exact absurd h.symm hne
          · exact h
        have h1 : strLe (key a) (key b) = true := (List.pairwise_cons.mp hp1).1 b hbas
        have h2 : strLe (key b) (key a) = true := (List.pairwise_cons.mp hp2).1 a habs
        have hkey : key a = key b := strLe_antisymm h1 h2
        have : key a ∈ as.map key := by
          rw [hkey]
          exact List.mem_map_of_mem key hbas
        exact (List.nodup_cons.mp (by simpa using hnd)).1 this
      subst hab
      have htail : as.Perm bs := hperm.cons_inv
      have h1 := (List.pairwise_cons.mp hp1).2
      have h2 := (List.pairwise_cons.mp hp2).2
      have hnd' : (as.map key).Nodup := (List.nodup_cons.mp (by simpa using hnd)).2
      rw [ih bs htail h1 h2 hnd']

/-- The filenames of the file-backed crates, through either projection. -/
theorem filter_isFile_map_filename (l : List Crate) :
    (l.filter Crate.isFile).map Crate.filename =
      (l.filterMap Crate.asFile).map FileCrate.filename := by
  induction l with
  | nil => rfl
  | cons c rest ih =>
    cases c with
    | file fc => simpa [Crate.isFile, Crate.asFile, Crate.filename] using ih
    | nonFile n fn => simpa [Crate.isFile, Crate.asFile] using ih

/-- The repack loop ignores non-file-backed crates. -/
theorem packCrates_filter (arch : String → List TarMember) (pfx : String) :
    ∀ xs : List Crate, packCrates arch pfx xs = packCrates arch pfx (xs.filter Crate.isFile) := by
  intro xs
  induction xs with
  | nil => rfl
  | cons c rest ih =>
    cases c with
    | file fc =>
      simp only [packCrates, List.filter_cons, Crate.isFile]
      rw [ih]
    | nonFile n fn =>
      simp only [packCrates, List.filter_cons, Crate.isFile]
      exact ih

/-- The repack member stream is determined by the processed order. -/
theorem repackMembers_eq_processed (l : List Crate) (arch : String → List TarMember)
    (pfx : String) :
    repackMembers l arch pfx = packCrates arch pfx (processedOrder l) :=
  packCrates_filter arch pfx (sortedCrates l)

theorem processedOrder_perm (l : List Crate) :
    (processedOrder l).Perm (l.filter Crate.isFile) :=
  (List.perm_insertionSort byFilename l).filter Crate.isFile

theorem processedOrder_pairwise (l : List Crate) :
    (processedOrder l).Pairwise byFilename :=
  (List.sorted_insertionSort byFilename l).sublist (List.filter_sublist _)

theorem processedOrder_nodup_keys {l : List Crate}
    (hnd : ((l.filterMap Crate.asFile).map FileCrate.filename).Nodup) :
    ((processedOrder l).map Crate.filename).Nodup := by
  have hpmap := (processedOrder_perm l).map Crate.filename
  have hn2 : ((l.filter Crate.isFile).map Crate.filename).Nodup := by
    rw [filter_isFile_map_filename]
    exact hnd
  exact hpmap.symm.nodup hn2

/-- `processedOrder` is invariant under permutation of the dependency set
(given distinct file-crate filenames). -/
theorem processedOrder_eq {l1 l2 : List Crate} (hperm : l1.Perm l2)
    (hnd : ((l1.filterMap Crate.asFile).map FileCrate.filename).Nodup) :
    processedOrder l1 = processedOrder l2 :=
  sorted_key_nodup_unique Crate.filename _ _
    ((processedOrder_perm l1).trans ((hperm.filter _).trans (processedOrder_perm l2).symm))
    (processedOrder_pairwise l1) (processedOrder_pairwise l2) (processedOrder_nodup_keys hnd)

/-- Dropping the non-file-backed crates beforehand does not change the
processed order. -/
theorem processedOrder_filter {l : List Crate}
    (hnd : ((l.filterMap Crate.asFile).map FileCrate.filename).Nodup) :
    processedOrder (l.filter Crate.isFile) = processedOrder l := by
  have hff : (l.filter Crate.isFile).filter Crate.isFile = l.filter Crate.isFile := by
    rw [List.filter_filter]
    simp
  have hpermA : (processedOrder (l.filter Crate.isFile)).Perm (l.filter Crate.isFile) := by
    have h := processedOrder_perm (l.filter Crate.isFile)
    rwa [hff] at h
  have hn2 : ((l.filter Crate.isFile).map Crate.filename).Nodup := by
    rw [filter_isFile_map_filename]
    exact hnd
  exact sorted_key_nodup_unique Crate.filename _ _ (hpermA.trans (processedOrder_perm l).symm)
    (processedOrder_pairwise _) (processedOrder_pairwise l)
    (((hpermA.map Crate.filename).symm).nodup hn2)

/-- Claim C6: repack processes exactly the file-backed dependencies, in
code-point-lexicographic order of filename; non-file-backed dependencies
are silently skipped (removing them changes nothing, and they never cause
an error); and repacking the same dependency set (any permutation of it,
with distinct file-crate filenames) over the same cache contents yields
the identical member stream — identical names, order, and content. -/
theorem c6_repack_deterministic (l1 l2 : List Crate) (arch : String → List TarMember)
    (pfx : String) (hperm : l1.Perm l2)
    (hnd : ((l1.filterMap Crate.asFile).map FileCrate.filename).Nodup) :
    repackMembers l1 arch pfx = repackMembers l2 arch pfx
    ∧ repackMembers l1 arch pfx = repackMembers (l1.filter Crate.isFile) arch pfx
    ∧ repackMembers l1 arch pfx = packCrates arch pfx (processedOrder l1)
    ∧ List.Pairwise (fun a b => strLe a b = true) ((processedOrder l1).map Crate.filename)
    ∧ (processedOrder l1).Perm (l1.filter Crate.isFile) := by
  refine ⟨?_, ?_, repackMembers_eq_processed l1 arch pfx,
    List.pairwise_map.mpr (processedOrder_pairwise l1), processedOrder_perm l1⟩
  · rw [repackMembers_eq_processed l1, repackMembers_eq_processed l2,
      processedOrder_eq hperm hnd]
  · rw [repackMembers_eq_processed l1, repackMembers_eq_processed (l1.filter Crate.isFile),
      processedOrder_filter hnd]

/-- Witness for `c3_repack_atomic` at a concrete invocation. -/
theorem c3_repack_atomic_witness : (fsRun [FsAct.createTemp]).final = none := by
  have h1 : [FsAct.createTemp] <+:
      (repackCrates [] (fun _ => []) "d" "d/out.tar.xz" "p").trace :=
    ⟨[FsAct.closeStream, FsAct.renameTempToFinal], rfl⟩
  have h2 : [FsAct.createTemp] ≠
      (repackCrates [] (fun _ => []) "d" "d/out.tar.xz" "p").trace := by decide
  exact (c3_repack_atomic [] (fun _ => []) "d" "d/out.tar.xz" "p").2.1 [FsAct.createTemp] h1 h2

/-- Witness for `c6_repack_deterministic`: a three-crate set (one of them
non-file-backed) in two different orders. -/
theorem c6_repack_deterministic_witness :
    repackMembers [Crate.file wBar, Crate.nonFile "g" "git-dep", Crate.file wAlpha]
        (fun _ => []) "p" =
      repackMembers [Crate.file wAlpha, Crate.file wBar, Crate.nonFile "g" "git-dep"]
        (fun _ => []) "p" := by
  have h := c6_repack_deterministic
    [Crate.file wBar, Crate.nonFile "g" "git-dep", Crate.file wAlpha]
    [Crate.file wAlpha, Crate.file wBar, Crate.nonFile "g" "git-dep"]
    (fun _ => []) "p" (by decide) (by decide)
  exact h.1

/-! ## C9: the per-dependency checksum manifest member -/

/-- Counterexample to claim C9 as stated: the synthesized member is named
`.cargo-checksum.json`, not `.checksum-manifest.json`.  At a concrete
crate whose archive holds one regular file, the repack of the crate
succeeds, its appended member list is exactly the copied file plus
`p/foo-1.0/.cargo-checksum.json`, and no member at the claimed path
`p/foo-1.0/.checksum-manifest.json` exists. -/
theorem c9_manifest_name_counterexample :
    (addCrateToTar c9Crate [⟨"foo-1.0/src/lib.rs", .regular, "fn main"⟩] "p").2 = none
    ∧ ((addCrateToTar c9Crate [⟨"foo-1.0/src/lib.rs", .regular, "fn main"⟩] "p").1.map
        OutMember.name) = ["p/foo-1.0/src/lib.rs", "p/foo-1.0/.cargo-checksum.json"]
    ∧ "p/foo-1.0/.checksum-manifest.json" ∉
        ((addCrateToTar c9Crate [⟨"foo-1.0/src/lib.rs", .regular, "fn main"⟩] "p").1.map
          OutMember.name) := by
  exact ⟨by decide, by decide, by decide⟩

/-- Claim C9, amended: after a dependency's archive members are copied,
exactly one additional member is appended, at
`prefix/packageRoot/.cargo-checksum.json` (not `.checksum-manifest.json`),
whose JSON content contains the dependency's pinned checksum and an empty
per-file hash map. -/
theorem c9_checksum_member_appended (crate : FileCrate) (archive : List TarMember)
    (pfx : String) (ms : List OutMember)
    (h : addCrateToTar crate archive pfx = (ms, none)) :
    ms = (copyMembers (parsePurePosix crate.crateDirectory) pfx archive).1 ++
        [checksumMember crate pfx]
    ∧ (checksumMember crate pfx).name =
        pfx ++ "/" ++ crate.crateDirectory ++ "/.cargo-checksum.json"
    ∧ (∃ s1 s2, (checksumMember crate pfx).content = some (s1 ++ crate.checksum ++ s2))
    ∧ (checksumMember crate pfx).content = some (cargoChecksumJson crate.checksum) := by
  rcases hc : copyMembers (parsePurePosix crate.crateDirectory) pfx archive with ⟨cs, cerr⟩
  cases cerr with
  | some e => simp [addCrateToTar, hc] at h
  | none =>
    have hms : ms = cs ++ [checksumMember crate pfx] := by
      have h2 : (cs ++ [checksumMember crate pfx],
          (none : Option PyExc)) = (ms, none) := by
        rw [← h]
        simp [addCrateToTar, hc]
      exact (Prod.mk.injEq _ _ _ _ ▸ h2).1.symm ▸ rfl
    refine ⟨?_, rfl, ⟨"\x7b\"package\": \"", "\", \"files\": \x7b\x7d\x7d", rfl⟩, rfl⟩
    rw [hms]

/-- Witness for `c9_checksum_member_appended` at the concrete C9 input. -/
theorem c9_checksum_member_witness :
    [(⟨"p/foo-1.0/src/lib.rs", TarEntryType.regular, some "fn main"⟩ : OutMember),
        checksumMember c9Crate "p"] =
      (copyMembers (parsePurePosix c9Crate.crateDirectory) "p"
        [⟨"foo-1.0/src/lib.rs", .regular, "fn main"⟩]).1 ++ [checksumMember c9Crate "p"]
    ∧ (checksumMember c9Crate "p").name =
        "p" ++ "/" ++ c9Crate.crateDirectory ++ "/.cargo-checksum.json"
    ∧ (∃ s1 s2, (checksumMember c9Crate "p").content = some (s1 ++ c9Crate.checksum ++ s2))
    ∧ (checksumMember c9Crate "p").content = some (cargoChecksumJson c9Crate.checksum) :=
  c9_checksum_member_appended c9Crate [⟨"foo-1.0/src/lib.rs", .regular, "fn main"⟩] "p"
    [⟨"p/foo-1.0/src/lib.rs", TarEntryType.regular, some "fn main"⟩, checksumMember c9Crate "p"]
    (by decide)

/-! ## Helper lemmas about the download unit -/

/-- Every exit path of the retry loop deletes the `.part` file. -/
theorem runAttempts_temp_none (fname : String) (script : Nat → AttemptEvent) :
    ∀ (remaining attempt : Nat) (backoff : ℚ) (s : UnitState), s.temp = none →
      ((runAttempts fname script backoff attempt remaining s).1).temp = none := by
  intro remaining
  induction remaining with
  | zero => intro attempt backoff s hs; exact hs
  | succ r ih =>
    intro attempt backoff s hs
    rw [runAttempts]
    cases hcl : classifyAttempt (script attempt) with
    | success body => rfl
    | cancelledNow w => rfl
    | failure cause w =>
      cases r with
      | zero => rfl
      | succ r' => exact ih (attempt + 1) (backoff * 2) _ rfl

/-- The loop starts at most `remaining` further iterations. -/
theorem runAttempts_attempts_le (fname : String) (script : Nat → AttemptEvent) :
    ∀ (remaining attempt : Nat) (backoff : ℚ) (s : UnitState),
      ((runAttempts fname script backoff attempt remaining s).1).attempts ≤
        s.attempts + remaining := by
  intro remaining
  induction remaining with
  | zero => intro attempt backoff s; show s.attempts ≤ s.attempts + 0; omega
  | succ r ih =>
    intro attempt backoff s
    rw [runAttempts]
    cases hcl : classifyAttempt (script attempt) with
    | success body => show s.attempts + 1 ≤ s.attempts + (r + 1); omega
    | cancelledNow w => show s.attempts + 1 ≤ s.attempts + (r + 1); omega
    | failure cause w =>
      cases r with
      | zero => show s.attempts + 1 ≤ s.attempts + 1; omega
      | succ r' =>
        refine Nat.le_trans (ih (attempt + 1) (backoff * 2) _) ?_
        show s.attempts + 1 + (r' + 1) ≤ s.attempts + (r' + 1 + 1)
        omega

/-- Shifting the backoff sequence by one doubling. -/
theorem sleeps_shift (backoff : ℚ) (r : Nat) (pre : List ℚ) :
    (pre ++ [backoff]) ++ (List.range r).map (fun k => backoff * 2 * 2 ^ k) =
      pre ++ (List.range (r + 1)).map (fun k => backoff * 2 ^ k) := by
  rw [List.append_assoc]
  congr 1
  rw [List.range_succ_eq_map, List.map_cons, List.map_map, List.singleton_append]
  congr 1
  · rw [pow_zero, mul_one]
  · have hfun : (fun k => backoff * 2 * 2 ^ k) =
        ((fun k => backoff * 2 ^ k) ∘ Nat.succ) := by
      funext k
      show backoff * 2 * 2 ^ k = backoff * 2 ^ (k + 1)
      rw [pow_succ]
      ring
    rw [hfun]

/-- A run whose every attempt fails exhausts the retry budget: it raises
`DownloadError` wrapping the final attempt's cause, makes exactly
`remaining` attempts, and sleeps the doubling backoff sequence between
them. -/
theorem runAttempts_all_fail (fname : String) (script : Nat → AttemptEvent) :
    ∀ (remaining attempt : Nat) (backoff : ℚ) (s : UnitState),
      1 ≤ remaining →
      (∀ i, attempt ≤ i → i < attempt + remaining → eventFails (script i) = true) →
      (runAttempts fname script backoff attempt remaining s).2 =
          .raised (.downloadFailed fname (eventCause (script (attempt + remaining - 1))))
      ∧ ((runAttempts fname script backoff attempt remaining s).1).attempts =
          s.attempts + remaining
      ∧ ((runAttempts fname script backoff attempt remaining s).1).sleeps =
          s.sleeps ++ (List.range (remaining - 1)).map (fun k => backoff * 2 ^ k) := by
  intro remaining
  induction remaining with
  | zero => intro attempt backoff s h1 _; exact absurd h1 (by omega)
  | succ r ih =>
    intro attempt backoff s _ hfail
    have hf : eventFails (script attempt) = true := hfail attempt (Nat.le_refl _) (by omega)
    rw [runAttempts]
    cases hcl : classifyAttempt (script attempt) with
    | success body => simp [eventFails, hcl] at hf
    | cancelledNow w => simp [eventFails, hcl] at hf
    | failure cause w =>
      have hcause : eventCause (script attempt) = cause := by simp [eventCause, hcl]
      cases r with
      | zero =>
        refine ⟨?_, rfl, ?_⟩
        · show UnitExit.raised (.downloadFailed fname cause) =
            .raised (.downloadFailed fname (eventCause (script (attempt + 1 - 1))))
          rw [show attempt + 1 - 1 = attempt from rfl, hcause]
        · show s.sleeps = s.sleeps ++ (List.range 0).map (fun k => backoff * 2 ^ k)
          simp
      | succ r' =>
        have hfail' : ∀ i, attempt + 1 ≤ i → i < attempt + 1 + (r' + 1) →
            eventFails (script i) = true := fun i h1 h2 => hfail i (by omega) (by omega)
        have hih := ih (attempt + 1) (backoff * 2)
          { temp := none
            dest := s.dest
            requests := s.requests + 1
            sleeps := s.sleeps ++ [backoff]
            attempts := s.attempts + 1 } (by omega) hfail'
        refine ⟨?_, ?_, ?_⟩
        · refine hih.1.trans ?_
          have hidx : attempt + 1 + (r' + 1) - 1 = attempt + (r' + 1 + 1) - 1 := by omega
          rw [hidx]
        · refine hih.2.1.trans ?_
          show s.attempts + 1 + (r' + 1) = s.attempts + (r' + 1 + 1)
          omega
        · refine hih.2.2.trans ?_
          show (s.sleeps ++ [backoff]) ++
              (List.range r').map (fun k => backoff * 2 * 2 ^ k) =
            s.sleeps ++ (List.range (r' + 1)).map (fun k => backoff * 2 ^ k)
          exact sleeps_shift backoff r' s.sleeps

/-- Cancellation delivered at attempt `j` (after `j - attempt` failed
attempts) exits the unit as cancelled without any further attempt. -/
theorem runAttempts_cancel (fname : String) (script : Nat → AttemptEvent) :
    ∀ (remaining attempt j : Nat) (backoff : ℚ) (s : UnitState),
      attempt ≤ j → j < attempt + remaining →
      (∀ i, attempt ≤ i → i < j → eventFails (script i) = true) →
      (∃ w, script j = .cancel w) →
      (runAttempts fname script backoff attempt remaining s).2 = .cancelled
      ∧ ((runAttempts fname script backoff attempt remaining s).1).attempts =
          s.attempts + (j - attempt + 1) := by
  intro remaining
  induction remaining with
  | zero => intro attempt j backoff s h1 h2 _ _; exact absurd h2 (by omega)
  | succ r ih =>
    intro attempt j backoff s h1 h2 hfail hcancel
    rw [runAttempts]
    rcases Nat.eq_or_lt_of_le h1 with heq | hlt
    · subst heq
      obtain ⟨w, hw⟩ := hcancel
      have hcl : classifyAttempt (script attempt) = .cancelledNow w := by
        rw [hw]; rfl
      rw [hcl]
      exact ⟨rfl, by show s.attempts + 1 = s.attempts + (attempt - attempt + 1); omega⟩
    · have hf : eventFails (script attempt) = true := hfail attempt (Nat.le_refl _) hlt
      cases hcl : classifyAttempt (script attempt) with
      | success body => simp [eventFails, hcl] at hf
      | cancelledNow w => simp [eventFails, hcl] at hf
      | failure cause w =>
        cases r with
        | zero => exact absurd h2 (by omega)
        | succ r' =>
          have hfail' : ∀ i, attempt + 1 ≤ i → i < j → eventFails (script i) = true :=
            fun i hi1 hi2 => hfail i (by omega) hi2
          have hih := ih (attempt + 1) j (backoff * 2)
            { temp := none
              dest := s.dest
              requests := s.requests + 1
              sleeps := s.sleeps ++ [backoff]
              attempts := s.attempts + 1 } hlt (by omega) hfail' hcancel
          refine ⟨hih.1, hih.2.trans ?_⟩
          show s.attempts + 1 + (j - (attempt + 1) + 1) = s.attempts + (j - attempt + 1)
          omega

/-- With a safe filename and no cached destination, the unit is the retry
loop from a fresh state. -/
theorem downloadCrate_run (retries : Nat) (crate : FileCrate) (script : Nat → AttemptEvent)
    (hbad : badFilename crate.filename = false) :
    downloadCrate retries none crate script =
      runAttempts crate.filename script (1 / 2) 1 retries initState := by
  simp [downloadCrate, hbad]

/-- With a safe filename and a non-empty cached destination, the unit
returns immediately in its fresh state. -/
theorem downloadCrate_cache_hit (retries : Nat) (crate : FileCrate)
    (script : Nat → AttemptEvent) (n : Nat) (hbad : badFilename crate.filename = false)
    (hn : 0 < n) :
    downloadCrate retries (some n) crate script = (initState, .completed) := by
  simp [downloadCrate, hbad, hn]

/-- Claim C4: on every exit path of a fetch unit — success, failed attempt
followed by retry, retries exhausted, cancellation, unsafe filename, cache
hit — no `.part` file remains once the unit terminates; and a cancelled
unit propagates the cancellation immediately after deleting its partial
file, without treating cancellation as retryable (no further attempt is
started). -/
theorem c4_no_part_file_left (retries : Nat) (cache : Option Nat) (crate : FileCrate)
    (script : Nat → AttemptEvent) :
    ((downloadCrate retries cache crate script).1).temp = none
    ∧ (∀ j w, 1 ≤ j → j ≤ retries →
        (∀ i, 1 ≤ i → i < j → eventFails (script i) = true) →
        script j = .cancel w →
        badFilename crate.filename = false → cache = none →
        (downloadCrate retries cache crate script).2 = .cancelled
        ∧ ((downloadCrate retries cache crate script).1).attempts = j) := by
  constructor
  · unfold downloadCrate
    split
    · rfl
    · split
      · rfl
      · exact runAttempts_temp_none crate.filename script retries 1 (1 / 2) initState rfl
  · intro j w hj1 hj2 hfail hcancel hbad hcache
    subst hcache
    rw [downloadCrate_run retries crate script hbad]
    have h := runAttempts_cancel crate.filename script retries 1 j (1 / 2) initState hj1
      (by omega) hfail ⟨w, hcancel⟩
    refine ⟨h.1, h.2.trans ?_⟩
    show 0 + (j - 1 + 1) = j
    omega

/-- Witness for `c4_no_part_file_left`: one failed attempt, then
cancellation at attempt 2 of 4. -/
theorem c4_no_part_file_witness :
    (downloadCrate 4 none sampleCrate c4Script).2 = .cancelled
    ∧ ((downloadCrate 4 none sampleCrate c4Script).1).attempts = 2 :=
  (c4_no_part_file_left 4 none sampleCrate c4Script).2 2 (some "chunk") (by decide) (by decide)
    (fun i h1 h2 => by
      have hi : i = 1 := by omega
      subst hi
      decide)
    (by decide) (by decide) rfl

/-- Claim C5: the retry policy.  The attempt budget is configurable with
default 4; a unit never starts more attempts than the budget; statuses
429/500/502/503/504 are classified as transient failures (raised as the
"retryable" response error, hence retried like any other failure); a unit
whose every attempt fails makes exactly `retries` attempts, sleeps the
jitter-free doubling backoff `0.5, 1, 2, ...` between attempts, and raises
a typed `DownloadError` that carries the crate identity and wraps the
final attempt's underlying cause. -/
theorem c5_retry_backoff (retries : Nat) (crate : FileCrate) (script : Nat → AttemptEvent)
    (cache : Option Nat) :
    retriesSetting none = 4
    ∧ (∀ n, retriesSetting (some n) = n)
    ∧ ((downloadCrate retries cache crate script).1).attempts ≤ retries
    ∧ (∀ st body, st ∈ retryableStatuses →
        classifyAttempt (.response st body) =
          .failure (.clientResponseError st "retryable") none)
    ∧ (1 ≤ retries → badFilename crate.filename = false → cache = none →
        (∀ i, 1 ≤ i → i ≤ retries → eventFails (script i) = true) →
        (downloadCrate retries cache crate script).2 =
          .raised (.downloadFailed crate.filename (eventCause (script retries)))
        ∧ ((downloadCrate retries cache crate script).1).attempts = retries
        ∧ ((downloadCrate retries cache crate script).1).sleeps =
            (List.range (retries - 1)).map (fun k => (1 / 2 : ℚ) * 2 ^ k)) := by
  refine ⟨rfl, fun n => rfl, ?_, ?_, ?_⟩
  · unfold downloadCrate
    split
    · show (0 : Nat) ≤ retries; omega
    · split
      · show (0 : Nat) ≤ retries; omega
      · refine Nat.le_trans
          (runAttempts_attempts_le crate.filename script retries 1 (1 / 2) initState) ?_
        show 0 + retries ≤ retries
        omega
  · intro st body hst
    show (if st ∈ retryableStatuses then
        AttemptOutcome.failure (.clientResponseError st "retryable") none
      else if 400 ≤ st then AttemptOutcome.failure (.clientResponseError st "raise_for_status") none
      else AttemptOutcome.success body) = _
    rw [if_pos hst]
  · intro hret hbad hcache hfail
    subst hcache
    rw [downloadCrate_run retries crate script hbad]
    have h := runAttempts_all_fail crate.filename script retries 1 (1 / 2) initState hret
      (fun i h1 h2 => hfail i h1 (by omega))
    refine ⟨h.1.trans ?_, h.2.1.trans (by show 0 + retries = retries; omega), h.2.2.trans ?_⟩
    · rw [show 1 + retries - 1 = retries by omega]
    · show [] ++ _ = _
      rw [List.nil_append]

/-- Witness for `c5_retry_backoff`: two attempts, both returning 503. -/
theorem c5_retry_backoff_witness :
    (downloadCrate 2 none sampleCrate (fun _ => .response 503 "x")).2 =
      .raised (.downloadFailed sampleCrate.filename
        (eventCause ((fun _ => AttemptEvent.response 503 "x") 2)))
    ∧ ((downloadCrate 2 none sampleCrate (fun _ => .response 503 "x")).1).attempts = 2
    ∧ ((downloadCrate 2 none sampleCrate (fun _ => .response 503 "x")).1).sleeps =
        (List.range (2 - 1)).map (fun k => (1 / 2 : ℚ) * 2 ^ k) :=
  (c5_retry_backoff 2 sampleCrate (fun _ => .response 503 "x") none).2.2.2.2
    (by decide) (by decide) rfl (fun i h1 h2 => by decide)

/-- Claim C8: a unit whose destination already exists non-empty in the
cache succeeds immediately — fresh state, zero attempts, zero requests;
consequently a fetch pass over a fully-populated cache performs zero
network requests in total. -/
theorem c8_cache_hit_skips (retries : Nat) (cache : String → Option Nat)
    (scripts : String → Nat → AttemptEvent) (crates : List FileCrate)
    (hsafe : ∀ c ∈ crates, badFilename c.filename = false)
    (hcache : ∀ c ∈ crates, ∃ n, cache c.filename = some n ∧ 0 < n) :
    (∀ c ∈ crates, downloadCrate retries (cache c.filename) c (scripts c.filename) =
        (initState, .completed)
      ∧ ((downloadCrate retries (cache c.filename) c (scripts c.filename)).1).requests = 0
      ∧ ((downloadCrate retries (cache c.filename) c (scripts c.filename)).1).attempts = 0)
    ∧ totalRequests retries cache scripts crates = 0 := by
  have hunit : ∀ c ∈ crates,
      downloadCrate retries (cache c.filename) c (scripts c.filename) =
        (initState, .completed) := by
    intro c hc
    obtain ⟨n, hn, hpos⟩ := hcache c hc
    rw [hn]
    exact downloadCrate_cache_hit retries c (scripts c.filename) n (hsafe c hc) hpos
  refine ⟨fun c hc => ⟨hunit c hc, by rw [hunit c hc]; exact rfl, by rw [hunit c hc]; exact rfl⟩, ?_⟩
  unfold totalRequests
  apply List.sum_eq_zero
  intro x hx
  obtain ⟨c, hc, hcx⟩ := List.mem_map.mp hx
  rw [← hcx, hunit c hc]
  exact rfl

/-- Witness for `c8_cache_hit_skips`: one crate, cached with 10 bytes. -/
theorem c8_cache_hit_witness :
    totalRequests 4 (fun _ => some 10) (fun _ _ => .response 200 "") [sampleCrate] = 0 :=
  (c8_cache_hit_skips 4 (fun _ => some 10) (fun _ _ => .response 200 "") [sampleCrate]
    (by decide) (fun c _ => ⟨10, rfl, by omega⟩)).2

/-! ## C2: join semantics of the fetch group -/

theorem firstFailureTime_none_iff (units : List FetchUnit) :
    firstFailureTime units = none ↔ ∀ u ∈ units, u.failsPermanently = false := by
  induction units with
  | nil => simp [firstFailureTime]
  | cons u rest ih =>
    by_cases hu : u.failsPermanently = true
    · simp [firstFailureTime, hu]
    · have hu' : u.failsPermanently = false := by
        cases h : u.failsPermanently
        · rfl
        · exact absurd h hu
      simp [firstFailureTime, hu', ih]

theorem firstFailureTime_isSome (units : List FetchUnit) (u : FetchUnit) (hu : u ∈ units)
    (hf : u.failsPermanently = true) : ∃ t, firstFailureTime units = some t := by
  cases h : firstFailureTime units with
  | some t => exact ⟨t, rfl⟩
  | none =>
    have hfalse := (firstFailureTime_none_iff units).mp h u hu
    rw [hf] at hfalse
    exact absurd hfalse (by decide)

/-- The first failure time is achieved by a failing unit and bounds every
failing unit's finish time from below. -/
theorem firstFailureTime_spec (units : List FetchUnit) :
    ∀ t, firstFailureTime units = some t →
      (∃ u ∈ units, u.failsPermanently = true ∧ u.finish = t)
      ∧ (∀ u ∈ units, u.failsPermanently = true → t ≤ u.finish) := by
  induction units with
  | nil => intro t ht; simp [firstFailureTime] at ht
  | cons u rest ih =>
    intro t ht
    by_cases hu : u.failsPermanently = true
    · rw [firstFailureTime, if_pos hu] at ht
      cases hr : firstFailureTime rest with
      | none =>
        rw [hr] at ht
        have htu : u.finish = t := by
          simpa using ht
        refine ⟨⟨u, List.mem_cons_self u rest, hu, htu⟩, ?_⟩
        intro v hv hfv
        rcases List.mem_cons.mp hv with rfl | hv'
        · omega
        · have := (firstFailureTime_none_iff rest).mp hr v hv'
          rw [hfv] at this
          exact absurd this (by decide)
      | some tr =>
        rw [hr] at ht
        have htmin : min u.finish tr = t := by simpa using ht
        obtain ⟨⟨w, hw, hwf, hwt⟩, hbound⟩ := ih tr hr
        refine ⟨?_, ?_⟩
        · rcases Nat.le_total u.finish tr with hle | hle
          · exact ⟨u, List.mem_cons_self u rest, hu, by omega⟩
          · refine ⟨w, List.mem_cons_of_mem u hw, hwf, ?_⟩
            omega
        · intro v hv hfv
          rcases List.mem_cons.mp hv with rfl | hv'
          · omega
          · have := hbound v hv' hfv
            omega
    · rw [firstFailureTime, if_neg hu] at ht
      obtain ⟨⟨w, hw, hwf, hwt⟩, hbound⟩ := ih t ht
      refine ⟨⟨w, List.mem_cons_of_mem u hw, hwf, hwt⟩, ?_⟩
      intro v hv hfv
      rcases List.mem_cons.mp hv with rfl | hv'
      · exact absurd hfv hu
      · exact hbound v hv' hfv

theorem le_foldl_max_init : ∀ (l : List Nat) (a : Nat), a ≤ l.foldl max a := by
  intro l
  induction l with
  | nil => intro a; exact Nat.le_refl a
  | cons b bs ih => intro a; exact Nat.le_trans (Nat.le_max_left a b) (ih (max a b))

theorem le_foldl_max (l : List Nat) : ∀ (a : Nat), ∀ x ∈ l, x ≤ l.foldl max a := by
  induction l with
  | nil => intro a x hx; simp at hx
  | cons b bs ih =>
    intro a x hx
    rcases List.mem_cons.mp hx with rfl | hx'
    · exact Nat.le_trans (Nat.le_max_right a x) (le_foldl_max_init bs (max a x))
    · exact ih (max a b) x hx'

/-- Counterexample to claim C2 as stated.  With two units that would both
fail permanently (`a-1.crate` at step 1, `b-2.crate` at step 2), the
`TaskGroup` join cancels `b-2.crate` when `a-1.crate` raises — the sibling
is cancelled early, before its own natural end — and the aggregate error
names only `a-1.crate`, not every dependency that would have failed. -/
theorem c2_fail_together_counterexample :
    (∃ u ∈ cexUnits, u.failsPermanently = true)
    ∧ (⟨"b-2.crate", 2, true⟩ : FetchUnit) ∈ cexUnits
    ∧ terminalState cexUnits ⟨"b-2.crate", 2, true⟩ = .cancelled
    ∧ namedFailures cexUnits = ["a-1.crate"]
    ∧ namedFailures cexUnits ≠
        (cexUnits.filter (·.failsPermanently)).map (·.filename) := by
  exact ⟨by decide, by decide, by decide, by decide, by decide⟩

/-- Claim C2, amended: when at least one unit fails permanently, the group
fails with `RuntimeError` naming the collected `DownloadError`s, and only
after every unit has reached a terminal state; however, the `TaskGroup`
join cancels every sibling that has not finished by the first failure
(fail-fast cancellation, not fail-together), and the aggregate error names
exactly the units that actually failed permanently — the cancelled
siblings are not named. -/
theorem c2_group_failure_after_all_terminal (units : List FetchUnit)
    (h : ∃ u ∈ units, u.failsPermanently = true) :
    ∃ tFail, firstFailureTime units = some tFail
    ∧ groupResult units = .error (.someDownloadsFailed (namedFailures units))
    ∧ namedFailures units ≠ []
    ∧ (∀ u ∈ units, terminationTime units u ≤ groupRaiseTime units)
    ∧ (∀ u ∈ units, tFail < u.finish → terminalState units u = .cancelled)
    ∧ (∀ name ∈ namedFailures units, ∃ u ∈ units,
        u.filename = name ∧ u.failsPermanently = true
        ∧ terminalState units u = .failedPermanently)
    ∧ (∀ u ∈ units, terminalState units u = .failedPermanently →
        u.filename ∈ namedFailures units) := by
  obtain ⟨u0, hu0, hf0⟩ := h
  obtain ⟨t, ht⟩ := firstFailureTime_isSome units u0 hu0 hf0
  refine ⟨t, ht, ?_, ?_, ?_, ?_, ?_, ?_⟩
  · unfold groupResult
    rw [ht]
  · obtain ⟨⟨w, hw, hwf, hwt⟩, _⟩ := firstFailureTime_spec units t ht
    have hwmem : w.filename ∈ namedFailures units := by
      unfold namedFailures
      rw [ht]
      refine List.mem_map_of_mem _ (List.mem_filter.mpr ⟨hw, ?_⟩)
      simp [hwf, hwt]
    exact List.ne_nil_of_mem hwmem
  · intro u hu
    unfold groupRaiseTime
    exact le_foldl_max _ 0 _ (List.mem_map_of_mem _ hu)
  · intro u hu hfin
    simp only [terminalState, ht]
    rw [if_neg (by omega)]
  · intro name hname
    unfold namedFailures at hname
    rw [ht] at hname
    obtain ⟨u, hu, huname⟩ := List.mem_map.mp hname
    obtain ⟨humem, hcond⟩ := List.mem_filter.mp hu
    rw [Bool.and_eq_true] at hcond
    have hfp : u.failsPermanently = true := hcond.1
    have hle : u.finish ≤ t := of_decide_eq_true hcond.2
    refine ⟨u, humem, huname, hfp, ?_⟩
    simp only [terminalState, ht]
    rw [if_pos hle, if_pos hfp]
  · intro u hu hterm
    simp only [terminalState, ht] at hterm
    by_cases hle : u.finish ≤ t
    · rw [if_pos hle] at hterm
      by_cases hfp : u.failsPermanently = true
      · unfold namedFailures
        rw [ht]
        refine List.mem_map_of_mem _ (List.mem_filter.mpr ⟨hu, ?_⟩)
        simp [hfp, hle]
      · rw [if_neg hfp] at hterm
        exact absurd hterm (by decide)
    · rw [if_neg hle] at hterm
      exact absurd hterm (by decide)

/-- Witness for `c2_group_failure_after_all_terminal` at the concrete
two-unit input. -/
theorem c2_group_failure_witness :
    groupResult cexUnits = .error (.someDownloadsFailed (namedFailures cexUnits)) := by
  obtain ⟨t, ht, hres, _, _, _, _, _⟩ :=
    c2_group_failure_after_all_terminal cexUnits (by decide)
  exact hres

/-! ## C7: transport-strategy fallback -/

theorem tryFetcher_error_ne {e : PyExc} (h : e ≠ .fileNotFound) :
    tryFetcher (.error e) = .error e := by
  cases e
  case fileNotFound => exact absurd rfl h
  all_goals rfl

/-- Claim C7: the strategies are tried in order; a strategy raising
`FileNotFoundError` (its external executable is absent) is skipped and the
next is tried; any other exception from a strategy propagates as-is and
aborts the fetch (no retry at this layer, later strategies untouched); and
when all three strategies are unavailable the fetch fails with a
`RuntimeError` naming the tried strategies. -/
theorem c7_fetcher_fallback_policy :
    (∀ o2 o3, fetchCrates (.ok ()) o2 o3 = .ok ())
    ∧ (∀ e o2 o3, e ≠ PyExc.fileNotFound → fetchCrates (.error e) o2 o3 = .error e)
    ∧ (∀ o3, fetchCrates (.error .fileNotFound) (.ok ()) o3 = .ok ())
    ∧ (∀ e o3, e ≠ PyExc.fileNotFound →
        fetchCrates (.error .fileNotFound) (.error e) o3 = .error e)
    ∧ fetchCrates (.error .fileNotFound) (.error .fileNotFound) (.ok ()) = .ok ()
    ∧ (∀ e, e ≠ PyExc.fileNotFound →
        fetchCrates (.error .fileNotFound) (.error .fileNotFound) (.error e) = .error e)
    ∧ fetchCrates (.error .fileNotFound) (.error .fileNotFound) (.error .fileNotFound) =
        .error (.runtimeError noFetcherMsg)
    ∧ noFetcherMsg =
        "No supported fetcher found (tried " ++ "aiohttp" ++ ", " ++ "aria2" ++ ", " ++
          "wget" ++ ")" := by
  refine ⟨fun o2 o3 => rfl, ?_, fun o3 => rfl, ?_, rfl, ?_, rfl, by decide⟩
  · intro e o2 o3 he
    show fetchFallback [Except.error e, o2, o3] = .error e
    rw [fetchFallback, tryFetcher_error_ne he]
  · intro e o3 he
    show fetchFallback [Except.error PyExc.fileNotFound, Except.error e, o3] = .error e
    rw [fetchFallback]
    show fetchFallback [Except.error e, o3] = .error e
    rw [fetchFallback, tryFetcher_error_ne he]
  · intro e he
    show fetchFallback [Except.error PyExc.fileNotFound, Except.error PyExc.fileNotFound,
      Except.error e] = .error e
    rw [fetchFallback]
    show fetchFallback [Except.error PyExc.fileNotFound, Except.error e] = .error e
    rw [fetchFallback]
    show fetchFallback [Except.error e] = .error e
    rw [fetchFallback, tryFetcher_error_ne he]

/-- Witness for `c7_fetcher_fallback_policy`: a non-`FileNotFoundError`
from the first strategy aborts the whole fetch. -/
theorem c7_fetcher_fallback_witness :
    fetchCrates (.error (.runtimeError "checksum mismatch")) (.ok ()) (.ok ()) =
      .error (.runtimeError "checksum mismatch") :=
  c7_fetcher_fallback_policy.2.1 (.runtimeError "checksum mismatch") (.ok ()) (.ok ())
    (by decide)

/-! ## C10: error propagation in the lockfile walk -/

/-- Ancestors whose body raises `FileNotFoundError` are skipped. -/
theorem getWorkspaceRoot_skip (pL : String → Except PyExc (List String))
    (pT : String → Except PyExc String) :
    ∀ (pre rest : List AncestorDir),
      (∀ b ∈ pre, ancestorStep pL pT b = .error .fileNotFound) →
      getWorkspaceRoot pL pT (pre ++ rest) = getWorkspaceRoot pL pT rest := by
  intro pre
  induction pre with
  | nil => intro rest _; rfl
  | cons b bs ih =>
    intro rest hpre
    have hb : ancestorStep pL pT b = .error .fileNotFound := hpre b (List.mem_cons_self b bs)
    show getWorkspaceRoot pL pT (b :: (bs ++ rest)) = _
    rw [getWorkspaceRoot, hb]
    exact ih rest (fun x hx => hpre x (List.mem_cons_of_mem b hx))

/-- Claim C10: in the upward walk, only a `FileNotFoundError` raised by an
ancestor's body continues to the next parent; the first ancestor whose
body raises any other exception (opening the lockfile — permission denied,
lockfile-is-a-directory; opening or parsing the manifest; parsing the
lockfile) makes the whole resolution fail with exactly that exception,
never converting it into the lockfile-not-found error nor deferring to a
higher ancestor; and only when every ancestor raises `FileNotFoundError`
does the walk end with the lockfile-not-found `RuntimeError`. -/
theorem c10_resolver_error_propagation (parseLock : String → Except PyExc (List String))
    (parseToml : String → Except PyExc String) (pre : List AncestorDir) (a : AncestorDir)
    (rest : List AncestorDir)
    (hpre : ∀ b ∈ pre, ancestorStep parseLock parseToml b = .error .fileNotFound) :
    (∀ e, ancestorStep parseLock parseToml a = .error e → e ≠ .fileNotFound →
        getWorkspaceRoot parseLock parseToml (pre ++ a :: rest) = .error e)
    ∧ (∀ wd, ancestorStep parseLock parseToml a = .ok wd →
        getWorkspaceRoot parseLock parseToml (pre ++ a :: rest) = .ok wd)
    ∧ (∀ e, a.lockOpen = .error e → ancestorStep parseLock parseToml a = .error e)
    ∧ (∀ lockBytes e, a.lockOpen = .ok lockBytes → a.manifestIsFile = true →
        a.manifestOpen = .error e → ancestorStep parseLock parseToml a = .error e)
    ∧ (∀ lockBytes tomlBytes e, a.lockOpen = .ok lockBytes → a.manifestIsFile = true →
        a.manifestOpen = .ok tomlBytes → parseToml tomlBytes = .error e →
        ancestorStep parseLock parseToml a = .error e)
    ∧ (∀ lockBytes e, a.lockOpen = .ok lockBytes → a.manifestIsFile = false →
        parseLock lockBytes = .error e → ancestorStep parseLock parseToml a = .error e)
    ∧ ((∀ b ∈ pre ++ a :: rest, ancestorStep parseLock parseToml b = .error .fileNotFound) →
        getWorkspaceRoot parseLock parseToml (pre ++ a :: rest) =
          .error (.runtimeError lockfileNotFoundMsg)) := by
  refine ⟨?_, ?_, ?_, ?_, ?_, ?_, ?_⟩
  · intro e he hne
    rw [getWorkspaceRoot_skip parseLock parseToml pre (a :: rest) hpre,
      getWorkspaceRoot, he]
    cases e
    case fileNotFound => exact absurd rfl hne
    all_goals rfl
  · intro wd hok
    rw [getWorkspaceRoot_skip parseLock parseToml pre (a :: rest) hpre,
      getWorkspaceRoot, hok]
  · intro e he
    unfold ancestorStep
    rw [he]
  · intro lockBytes e hlock hman hmo
    unfold ancestorStep
    rw [hlock, hman, hmo]
    rfl
  · intro lockBytes tomlBytes e hlock hman hmo hpt
    simp only [ancestorStep, hlock, hman, hmo, if_true, eq_self_iff_true]
    rw [hpt]
  · intro lockBytes e hlock hman hpl
    simp only [ancestorStep, hlock, hman, Bool.false_eq_true, if_false]
    rw [hpl]
  · intro hall
    have h := getWorkspaceRoot_skip parseLock parseToml (pre ++ a :: rest) [] hall
    rw [List.append_nil] at h
    rw [h]
    rfl

/-- Witness for `c10_resolver_error_propagation`: a permission error at
the second ancestor propagates after the first ancestor is skipped. -/
theorem c10_resolver_witness :
    getWorkspaceRoot (fun _ => .ok []) (fun _ => .ok "")
        ([(⟨.error .fileNotFound, false, .ok ""⟩ : AncestorDir)] ++
          (⟨.error .permissionDenied, false, .ok ""⟩ : AncestorDir) :: []) =
      .error .permissionDenied :=
  (c10_resolver_error_propagation (fun _ => .ok []) (fun _ => .ok "")
    [⟨.error .fileNotFound, false, .ok ""⟩] ⟨.error .permissionDenied, false, .ok ""⟩ []
    (by decide)).1 .permissionDenied (by decide) (by decide)

end VendorCrates
